import Mathlib

/-!
Verification of the data-handling core of the Health & Workout Tracker
(`src/app.py`).

The development shallowly embeds the pandas-level operations that the
application performs:

* `load_csv` / `save_csv` — CSV persistence with schema backfill and
  projection (`app.py` lines 14-27);
* `ensure_date_col` — permissive date normalization (`app.py` lines 29-35);
* the Nutrition Summary page — the "Daily Totals" display and the
  weekly/monthly groupby-mean aggregation (`app.py` lines 182-220);
* the Workout History page — exercise filtering, date ordering, and the
  start/current/delta/percent-change statistics (`app.py` lines 101-139).

Calendar dates are modelled as year/month/day triples; the week bucket of
pandas `to_period("W").start_time` (weeks end on Sunday, hence start on
Monday) is computed through a civil-calendar day-number conversion.
Numeric CSV cells are modelled as exact decimals (integer mantissa and
decimal-place count), and metric arithmetic is carried out in `ℚ`.
Missing values (`None` / `NaN` / `NaT`) are modelled as `Option.none` or
as an explicit `Cell.absent` marker.
-/

namespace HealthApp

/-! ## Calendar dates -/

/-- A civil calendar date: year, month, day. -/
structure Date where
  y : ℕ
  m : ℕ
  d : ℕ
deriving DecidableEq

/-- Serial day number of a civil date (days since 1970-01-01), following the
standard civil-from-days conversion used by datetime libraries. -/
def Date.toDayNumber (dt : Date) : ℤ :=
  let yy : ℤ := if dt.m ≤ 2 then (dt.y : ℤ) - 1 else (dt.y : ℤ)
  let mm : ℤ := dt.m
  let dd : ℤ := dt.d
  let era : ℤ := Int.fdiv yy 400
  let yoe : ℤ := yy - era * 400
  let doy : ℤ := Int.fdiv (153 * (mm + (if 2 < mm then -3 else 9)) + 2) 5 + dd - 1
  let doe : ℤ := yoe * 365 + Int.fdiv yoe 4 - Int.fdiv yoe 100 + doy
  era * 146097 + doe - 719468

/-- Day-of-week of a serial day number: `0` is Monday, …, `6` is Sunday
(day 0 = 1970-01-01 was a Thursday, i.e. weekday 3). -/
def dayOfWeek (n : ℤ) : ℤ := (n + 3) % 7

/-- Lexicographic (chronological) order on civil dates. -/
def dateLE (a b : Date) : Prop :=
  a.y < b.y ∨ (a.y = b.y ∧ (a.m < b.m ∨ (a.m = b.m ∧ a.d ≤ b.d)))

instance : DecidableRel dateLE := fun a b => by
  unfold dateLE; exact inferInstance

/-! ## Rounding

pandas `DataFrame.round(1)` rounds half to even (numpy rounding); the same
convention is used by Python's string formatting in the progress display. -/

/-- Round a rational to the nearest integer, halves to even. -/
def roundHalfEven (q : ℚ) : ℤ :=
  if q - ⌊q⌋ < 1/2 then ⌊q⌋
  else if 1/2 < q - ⌊q⌋ then ⌊q⌋ + 1
  else if Even ⌊q⌋ then ⌊q⌋ else ⌊q⌋ + 1

/-- Round a rational to one decimal place, halves to even
(the `round(1)` applied to the weekly/monthly means). -/
def round1 (q : ℚ) : ℚ := (roundHalfEven (q * 10) : ℚ) / 10

/-! ## Nutrition rows and the Nutrition Summary page -/

/-- The five numeric metric columns of the nutrition table. -/
inductive Metric
  | calories
  | protein
  | carbs
  | fat
  | sugar
deriving DecidableEq

/-- One row of the nutrition table as it exists in memory on the Nutrition
Summary page: the date column has been normalized (`NaT` is `none`) and each
numeric metric holds a number or `NaN` (`none`). -/
structure NRow where
  date : Option Date
  calories : Option ℚ
  protein : Option ℚ
  carbs : Option ℚ
  fat : Option ℚ
  sugar : Option ℚ
  notes : Option (List Char)
deriving DecidableEq

/-- The value of a metric column in a nutrition row. -/
def NRow.metricVal (r : NRow) : Metric → Option ℚ
  | .calories => r.calories
  | .protein => r.protein
  | .carbs => r.carbs
  | .fat => r.fat
  | .sugar => r.sugar

/-- One output row of the weekly/monthly aggregation: the rounded mean of
each metric over the bucket (`NaN`, i.e. `none`, when the bucket has no
value for the metric). -/
structure AggRow where
  calories : Option ℚ
  protein : Option ℚ
  carbs : Option ℚ
  fat : Option ℚ
  sugar : Option ℚ
deriving DecidableEq

/-- The value of a metric column in an aggregated row. -/
def AggRow.metricVal (a : AggRow) : Metric → Option ℚ
  | .calories => a.calories
  | .protein => a.protein
  | .carbs => a.carbs
  | .fat => a.fat
  | .sugar => a.sugar

/-- pandas `Series.mean()` over a column slice: skips missing values; the
mean of an all-missing slice is `NaN` (`none`).  The result is rounded to
one decimal as in the source (`.mean().round(1)`). -/
def meanOpt (vs : List ℚ) : Option ℚ :=
  match vs with
  | [] => none
  | _ => some (round1 (vs.sum / (vs.length : ℚ)))

/-- `groupby(...)[metrics].mean().round(1)` applied to one bucket of rows. -/
def aggRow (rows : List NRow) : AggRow :=
  { calories := meanOpt (rows.filterMap (·.calories))
    protein := meanOpt (rows.filterMap (·.protein))
    carbs := meanOpt (rows.filterMap (·.carbs))
    fat := meanOpt (rows.filterMap (·.fat))
    sugar := meanOpt (rows.filterMap (·.sugar)) }

/-- The week bucket key of a date: the serial day number of the Monday
starting its calendar week.  This embeds
`date.dt.to_period("W").apply(lambda r: r.start_time)`: pandas weekly
periods end on Sunday, so `start_time` is the preceding-or-same Monday. -/
def weekKey (dt : Date) : ℤ :=
  dt.toDayNumber - (dt.toDayNumber + 3) % 7

/-- The month bucket key of a date: the first day of its calendar month.
This embeds `date.dt.to_period("M").apply(lambda r: r.start_time)`. -/
def monthKey (dt : Date) : Date := ⟨dt.y, dt.m, 1⟩

/-- Rows paired with their week key.  Rows whose date is absent (`NaT`) get
no key and are dropped, exactly as pandas `groupby` drops missing group
keys. -/
def weekPairs (t : List NRow) : List (ℤ × NRow) :=
  t.filterMap (fun r => r.date.map (fun dt => (weekKey dt, r)))

/-- Rows paired with their month key (absent dates dropped). -/
def monthPairs (t : List NRow) : List (Date × NRow) :=
  t.filterMap (fun r => r.date.map (fun dt => (monthKey dt, r)))

/-- The rows of one bucket. -/
def bucketRows {κ : Type} [DecidableEq κ] (ps : List (κ × NRow)) (k : κ) :
    List NRow :=
  (ps.filter (fun p => decide (p.1 = k))).map (·.2)

/-- The distinct week keys, most recent first
(`groupby` keys, then `sort_values("week", ascending=False)`). -/
def weeklyKeys (t : List NRow) : List ℤ :=
  List.insertionSort (· ≥ ·) ((weekPairs t).map (·.1)).dedup

/-- Reverse-chronological order on dates (used to sort month buckets). -/
def dateGE (a b : Date) : Prop := dateLE b a

instance : DecidableRel dateGE := fun a b => by
  unfold dateGE; exact inferInstance

/-- The distinct month keys, most recent first. -/
def monthlyKeys (t : List NRow) : List Date :=
  List.insertionSort dateGE ((monthPairs t).map (·.1)).dedup

/-- The weekly-averages table of the Nutrition Summary page
(`app.py` lines 197-204): one row per nonempty week bucket, most recent
week first, with each metric's skip-missing mean rounded to one decimal. -/
def weeklyAgg (t : List NRow) : List (ℤ × AggRow) :=
  (weeklyKeys t).map (fun k => (k, aggRow (bucketRows (weekPairs t) k)))

/-- The monthly-averages table of the Nutrition Summary page
(`app.py` lines 210-217). -/
def monthlyAgg (t : List NRow) : List (Date × AggRow) :=
  (monthlyKeys t).map (fun k => (k, aggRow (bucketRows (monthPairs t) k)))

/-- Lift an order on dates to optional dates, placing missing dates last
(pandas `sort_values` default `na_position="last"`). -/
def optRel (le : Date → Date → Prop) : Option Date → Option Date → Prop
  | _, none => True
  | none, some _ => False
  | some x, some y => le x y

instance (le : Date → Date → Prop) [DecidableRel le] :
    DecidableRel (optRel le) := fun a b => by
  cases a <;> cases b <;> simp only [optRel] <;> exact inferInstance

/-- Row order of the "Daily Totals" display: descending by date, rows with
absent dates last (`sort_values("date", ascending=False)`, pandas default
`na_position="last"`). -/
def dailyRel (a b : NRow) : Prop :=
  optRel (fun x y => dateLE y x) a.date b.date

instance : DecidableRel dailyRel := fun a b => by
  unfold dailyRel; exact inferInstance

/-- The "Daily Totals" display of the Nutrition Summary page
(`app.py` lines 192-194): the nutrition rows themselves, sorted by date
descending.  No grouping and no averaging happens here. -/
def dailyView (t : List NRow) : List NRow :=
  List.insertionSort dailyRel t

/-! ## Workout rows and the Workout History page -/

/-- One row of the workout table as it exists in memory on the Workout
History page (dates normalized, every field possibly missing). -/
structure WRow where
  date : Option Date
  exercise : Option (List Char)
  sets : Option ℤ
  reps : Option ℤ
  weight : Option ℚ
  notes : Option (List Char)
deriving DecidableEq

/-- Ascending date order for workout rows, rows with missing dates last
(`sort_values("date")`, pandas default `na_position="last"`). -/
def ascRel (a b : WRow) : Prop :=
  optRel dateLE a.date b.date

instance : DecidableRel ascRel := fun a b => by
  unfold ascRel; exact inferInstance

/-- The rows whose exercise label matches the selected exercise exactly
(`workouts_df[workouts_df["exercise"] == selected_exercise]`; a missing
label never equals the selected one). -/
def matchRows (t : List WRow) (ex : List Char) : List WRow :=
  t.filter (fun r => decide (r.exercise = some ex))

/-- The matching rows sorted ascending by date
(`filtered.sort_values("date")`). -/
def sortedMatch (t : List WRow) (ex : List Char) : List WRow :=
  List.insertionSort ascRel (matchRows t ex)

/-- The plotted rows: matching rows, date-sorted, with rows missing a
weight dropped (`filtered.dropna(subset=["weight"])`). -/
def plotRows (t : List WRow) (ex : List Char) : List WRow :=
  (sortedMatch t ex).filter (fun r => r.weight.isSome)

/-- The progress statistics shown under the history chart. -/
structure Stats where
  start : ℚ
  current : ℚ
  delta : ℚ
  pct : ℚ
deriving DecidableEq

/-- The progress computation of the Workout History page (`app.py`
lines 130-134): `none` when no plotted rows remain (the source guards the
statistics behind `if not plot_df.empty`); otherwise start weight is the
first plotted row's, current the last's, with delta and percent-change
(zero when the start weight is zero) derived from them. -/
def progressStats (t : List WRow) (ex : List Char) : Option Stats :=
  match plotRows t ex with
  | [] => none
  | x :: xs =>
    let s : ℚ := x.weight.getD 0
    let c : ℚ := ((x :: xs).getLast (List.cons_ne_nil x xs)).weight.getD 0
    some ⟨s, c, c - s, if s = 0 then 0 else (c - s) / s * 100⟩

/-! ## Concrete example tables -/

/-- The exercise label of the progress example. -/
def benchName : List Char := "Bench".toList

/-- The workout table of the progress example: three "Bench" rows with
weights 135, 145, 155 on ascending dates, plus an unrelated "Squat" row. -/
def benchTable : List WRow :=
  [ { date := some ⟨2024, 1, 1⟩, exercise := some benchName, sets := some 3,
      reps := some 5, weight := some 135, notes := none },
    { date := some ⟨2024, 1, 3⟩, exercise := some benchName, sets := some 3,
      reps := some 5, weight := some 145, notes := none },
    { date := some ⟨2024, 1, 4⟩, exercise := some ("Squat".toList),
      sets := some 5, reps := some 5, weight := some 225, notes := none },
    { date := some ⟨2024, 1, 5⟩, exercise := some benchName, sets := some 3,
      reps := some 5, weight := some 155, notes := none } ]

/-- A workout table whose only "Row" entry has no weight value. -/
def rowTable : List WRow :=
  [ { date := some ⟨2024, 2, 1⟩, exercise := some ("Row".toList),
      sets := some 3, reps := some 8, weight := none, notes := none },
    { date := some ⟨2024, 2, 2⟩, exercise := some ("Curl".toList),
      sets := some 3, reps := some 12, weight := some 30, notes := none } ]

/-- A workout table where the only matching rows are one dated row and one
row with an unparseable (absent) date but a present weight. -/
def deadliftTable : List WRow :=
  [ { date := none, exercise := some ("Deadlift".toList), sets := some 1,
      reps := some 5, weight := some 315, notes := none },
    { date := some ⟨2024, 3, 1⟩, exercise := some ("Deadlift".toList),
      sets := some 1, reps := some 5, weight := some 305, notes := none } ]

/-- The nutrition table of the spec's aggregation example, extended with a
row whose sugar value is absent and a row whose date failed to parse. -/
def nutriTable : List NRow :=
  [ { date := some ⟨2024, 1, 1⟩, calories := some 2000, protein := some 150,
      carbs := some 200, fat := some 70, sugar := some 30, notes := none },
    { date := some ⟨2024, 1, 1⟩, calories := some 2200, protein := some 160,
      carbs := some 210, fat := some 75, sugar := some 35, notes := none },
    { date := some ⟨2024, 1, 8⟩, calories := some 1800, protein := some 140,
      carbs := some 180, fat := some 60, sugar := none, notes := none },
    { date := none, calories := some 1000, protein := some 50,
      carbs := some 100, fat := some 20, sugar := some 10, notes := none } ]

/-- A nutrition table whose rows all carry distinct, present dates. -/
def distinctTable : List NRow :=
  [ { date := some ⟨2024, 2, 5⟩, calories := some 1900, protein := some 120,
      carbs := some 150, fat := some 55, sugar := some 25, notes := none },
    { date := some ⟨2024, 2, 6⟩, calories := some 2100, protein := some 130,
      carbs := some 170, fat := some 65, sugar := some 20, notes := none } ]

/-! ## Cells and CSV files

A CSV field is modelled as its character list.  An in-memory cell is the
pandas value it holds: the absent marker (`None`/`NaN`/`NaT`), an exact
decimal number (integer mantissa with a count of decimal places, covering
the int and float cells the app produces), a text value, or a normalized
calendar date (a `datetime64` cell).  `pd.read_csv` type inference is
modelled per cell: an empty field is absent, a numeric-looking field is a
number, anything else is text. -/

/-- An in-memory table cell. -/
inductive Cell
  | absent
  | num (m : ℤ) (e : ℕ)
  | text (s : List Char)
  | date (dt : Date)
deriving DecidableEq

/-- The decimal digit character for `d` (meaningful for `d < 10`). -/
def digitChar (d : ℕ) : Char := Char.ofNat (48 + d)

/-- The numeric value of a digit character. -/
def charVal (c : Char) : ℕ := c.toNat - 48

/-- Big-endian base-10 digits, by structural recursion on a fuel bound so
that the kernel can evaluate it. -/
def digitsBEAux : ℕ → ℕ → List ℕ
  | 0, _ => []
  | _ + 1, 0 => []
  | fuel + 1, n + 1 => digitsBEAux fuel ((n + 1) / 10) ++ [(n + 1) % 10]

/-- Big-endian base-10 digits of a natural number (empty for 0). -/
def natDigitsBE (n : ℕ) : List ℕ := digitsBEAux n n

/-- Left-pad a digit list with zeros to length at least `k`. -/
def padDigits (k : ℕ) (l : List ℕ) : List ℕ :=
  List.replicate (k - l.length) 0 ++ l

/-- The numeric value of a big-endian digit-character list. -/
def digitsVal (s : List Char) : ℕ :=
  s.foldl (fun a c => 10 * a + charVal c) 0

/-- Render a nonnegative decimal `n / 10^e` the way Python prints it:
no decimal point for `e = 0`, otherwise `e` fractional digits with the
integer part zero-padded (`0.05`, `135.0`). -/
def renderUnsigned (n e : ℕ) : List Char :=
  (((padDigits (e + 1) (natDigitsBE n)).take
      ((padDigits (e + 1) (natDigitsBE n)).length - e)).map digitChar) ++
    (if e = 0 then []
     else '.' :: ((padDigits (e + 1) (natDigitsBE n)).drop
      ((padDigits (e + 1) (natDigitsBE n)).length - e)).map digitChar)

/-- Render a signed decimal `m / 10^e`. -/
def renderNum (m : ℤ) (e : ℕ) : List Char :=
  (if m < 0 then ['-'] else []) ++ renderUnsigned m.natAbs e

/-- Render a date as `YYYY-MM-DD` (what `to_csv` writes for a normalized
`datetime64` cell). -/
def renderDate (dt : Date) : List Char :=
  (padDigits 4 (natDigitsBE dt.y)).map digitChar ++
    ('-' :: ((padDigits 2 (natDigitsBE dt.m)).map digitChar ++
      ('-' :: (padDigits 2 (natDigitsBE dt.d)).map digitChar)))

/-- Serialize one cell to its CSV field (`to_csv` writes nothing for a
missing value). -/
def renderCell : Cell → List Char
  | .absent => []
  | .num m e => renderNum m e
  | .text s => s
  | .date dt => renderDate dt

/-- Parse a decimal exponent suffix (the part after an `e`/`E`): an
optional sign followed by digits. -/
def parseExponent (s : List Char) : Option ℤ :=
  if s.head? = some '-' then
    if s.tail ≠ [] ∧ s.tail.all Char.isDigit then
      some (-(digitsVal s.tail : ℤ))
    else none
  else if s.head? = some '+' then
    if s.tail ≠ [] ∧ s.tail.all Char.isDigit then
      some ((digitsVal s.tail : ℤ))
    else none
  else if s ≠ [] ∧ s.all Char.isDigit then some ((digitsVal s : ℤ))
  else none

/-- Apply a decimal exponent to a mantissa with `frac` fractional digits:
`m / 10^frac * 10^z` expressed again as a mantissa and a count of
fractional digits. -/
def applyExponent (m frac : ℕ) (z : ℤ) : ℕ × ℕ :=
  if (frac : ℤ) ≤ z then (m * 10 ^ (z - frac).toNat, 0)
  else (m, ((frac : ℤ) - z).toNat)

/-- Finish parsing a number after its mantissa: the rest must be empty or
an `e`/`E` exponent suffix. -/
def parseMantissaRest (m frac : ℕ) (rest : List Char) : Option (ℕ × ℕ) :=
  if rest = [] then some (m, frac)
  else if rest.head? = some 'e' ∨ rest.head? = some 'E' then
    (parseExponent rest.tail).map (fun z => applyExponent m frac z)
  else none

/-- Parse an unsigned float field the way the CSV reader's numeric
converter does: digits with an optional fraction (either side of the dot
may be empty, not both), or a bare digit run, followed by an optional
scientific-notation exponent.  Returns the mantissa and the number of
fractional digits. -/
def parseUnsigned (s : List Char) : Option (ℕ × ℕ) :=
  if (s.dropWhile Char.isDigit).head? = some '.' then
    if s.takeWhile Char.isDigit = [] ∧
        (((s.dropWhile Char.isDigit).tail).takeWhile Char.isDigit) = [] then
      none
    else
      parseMantissaRest
        (digitsVal (s.takeWhile Char.isDigit ++
          ((s.dropWhile Char.isDigit).tail).takeWhile Char.isDigit))
        ((((s.dropWhile Char.isDigit).tail).takeWhile Char.isDigit)).length
        (((s.dropWhile Char.isDigit).tail).dropWhile Char.isDigit)
  else
    if s.takeWhile Char.isDigit = [] then none
    else
      parseMantissaRest (digitsVal (s.takeWhile Char.isDigit)) 0
        (s.dropWhile Char.isDigit)

/-- Parse a signed float field (optional `-` or `+` sign). -/
def parseNumTok (s : List Char) : Option (ℤ × ℕ) :=
  if s.head? = some '-' then
    (parseUnsigned s.tail).map (fun p => (-(p.1 : ℤ), p.2))
  else if s.head? = some '+' then
    (parseUnsigned s.tail).map (fun p => ((p.1 : ℤ), p.2))
  else (parseUnsigned s).map (fun p => ((p.1 : ℤ), p.2))

/-- `pd.read_csv`'s default `na_values` tokens (besides the empty field):
any field equal to one of these reloads as a missing value. -/
def naTokens : List (List Char) :=
  ["#N/A", "#N/A N/A", "#NA", "-1.#IND", "-1.#QNAN", "-NaN", "-nan",
   "1.#IND", "1.#QNAN", "<NA>", "N/A", "NA", "NULL", "NaN", "None",
   "n/a", "nan", "null"].map String.toList

/-- Characters that can occur in a rendered number or date: digits, the
decimal dot, and the minus sign.  Every `na_values` token contains a
character outside this set, which is how rendered numbers and dates are
shown not to collide with them. -/
def plainNumChar (c : Char) : Bool := c.isDigit || c == '.' || c == '-'

/-- Field-surrounding whitespace that the CSV numeric converter skips. -/
def isSpaceChar (c : Char) : Bool := c == ' ' || c == '\t' || c == '\r'

/-- Strip leading and trailing whitespace from a field. -/
def trimSpaces (s : List Char) : List Char :=
  ((s.dropWhile isSpaceChar).reverse.dropWhile isSpaceChar).reverse

/-- The special float words the CSV numeric converter also accepts: an
optional sign followed by case-insensitive `inf`, `infinity` or `nan`.
These reload as floats (or NaN), not as text. -/
def isSpecialFloatToken (s : List Char) : Bool :=
  ((if s.head? = some '-' ∨ s.head? = some '+' then s.tail else s).map
      Char.toLower) == ("inf".toList) ||
  ((if s.head? = some '-' ∨ s.head? = some '+' then s.tail else s).map
      Char.toLower) == ("infinity".toList) ||
  ((if s.head? = some '-' ∨ s.head? = some '+' then s.tail else s).map
      Char.toLower) == ("nan".toList)

/-- The boolean literals the CSV reader converts to booleans rather than
text (the lowercase forms are included conservatively). -/
def isBoolToken (s : List Char) : Bool :=
  s == ("True".toList) || s == ("TRUE".toList) || s == ("true".toList) ||
  s == ("False".toList) || s == ("FALSE".toList) || s == ("false".toList)

/-- `pd.read_csv` cell typing: empty fields and the default `na_values`
tokens become the absent marker, numeric-looking fields (plain or
scientific notation) become numbers, everything else stays text.
Whitespace-padded numbers, `inf`/`nan` words and boolean literals reload
as floats or booleans in the real reader; `Cell` has no constructors for
float infinity or booleans, so such fields are left as text here and are
excluded from the round-trip hypotheses (`cellOk`) instead — the
application itself never writes them. -/
def parseField (s : List Char) : Cell :=
  if s = [] ∨ s ∈ naTokens then Cell.absent
  else
    match parseNumTok s with
    | some (m, e) => Cell.num m e
    | none => Cell.text s

/-- Split a character list at the first occurrence of `c`: the part before
it, and (when `c` occurs) the part after it. -/
def splitFirst (c : Char) : List Char → List Char × Option (List Char)
  | [] => ([], none)
  | a :: rest =>
    if a = c then ([], some rest)
    else ((splitFirst c rest).1.cons a, (splitFirst c rest).2)

/-- Parse a `Y-M-D` date out of a character list (each component a
nonempty run of digits). -/
def parseYMD (s : List Char) : Option Date :=
  match splitFirst '-' s with
  | (p1, some r1) =>
    match splitFirst '-' r1 with
    | (p2, some p3) =>
      if p1 ≠ [] ∧ p2 ≠ [] ∧ p3 ≠ [] ∧ p1.all Char.isDigit ∧
          p2.all Char.isDigit ∧ p3.all Char.isDigit then
        some ⟨digitsVal p1, digitsVal p2, digitsVal p3⟩
      else none
    | (_, none) => none
  | (_, none) => none

/-- The permissive date parser of `ensure_date_col`
(`pd.to_datetime(..., errors="coerce")` followed by `.dt.normalize()`),
modelled for ISO-style inputs: an optional time-of-day after a space is
parsed and then discarded by the normalization, and anything that does not
carry a `Y-M-D` prefix fails. -/
def parseDateStr (s : List Char) : Option Date :=
  parseYMD (s.takeWhile (fun c => decide (c ≠ ' ')))

/-- Elementwise `ensure_date_col`: dates pass through, text is parsed
permissively (failures coerce to the absent marker, `NaT`), and absent
stays absent.  A numeric cell is also coerced to absent (numbers never
reach the date column in the app's flows). -/
def ensureDateCell (c : Cell) : Cell :=
  match c with
  | Cell.date dt => Cell.date dt
  | Cell.text s =>
    (match parseDateStr s with
     | some dt => Cell.date dt
     | none => Cell.absent)
  | Cell.num _ _ => Cell.absent
  | Cell.absent => Cell.absent

/-- An in-memory pandas `DataFrame`: a header and one cell list per row. -/
structure Table where
  header : List String
  rows : List (List Cell)
deriving DecidableEq

/-- The parsed contents of a CSV file: the header row and the raw fields
of each data row. -/
structure FileData where
  header : List String
  rows : List (List (List Char))
deriving DecidableEq

/-- `save_csv` (`app.py` lines 25-27): serialize the table, header first,
one field per cell; the file's previous contents are wholly replaced. -/
def save_csv (t : Table) : FileData :=
  ⟨t.header, t.rows.map (List.map renderCell)⟩

/-- The schema-coercion step shared by `load_csv` (lines 18-21) and the
upload pages (lines 237-240, 266-269): every schema column missing from
the table is synthesized filled with the absent marker, then the table is
projected to exactly the schema columns in schema order, silently dropping
the rest. -/
def coerceSchema (t : Table) (schema : List String) : Table :=
  ⟨schema, t.rows.map (fun row => schema.map (fun c =>
    if c ∈ t.header then row.getD (t.header.indexOf c) Cell.absent
    else Cell.absent))⟩

/-- `load_csv` (`app.py` lines 14-23): a missing file (`none`) yields an
empty table with the schema's columns; otherwise the file is parsed with
per-cell type inference and coerced to the schema. -/
def load_csv (f : Option FileData) (schema : List String) : Table :=
  match f with
  | none => ⟨schema, []⟩
  | some fd => coerceSchema ⟨fd.header, fd.rows.map (List.map parseField)⟩ schema

/-- `ensure_date_col` (`app.py` lines 29-35) on a whole table: an empty
table is returned unchanged; otherwise the named column is normalized in
place. -/
def ensureDateCol (t : Table) (col : String) : Table :=
  if t.rows = [] then t
  else
    ⟨t.header, t.rows.map (fun row =>
      row.set (t.header.indexOf col)
        (ensureDateCell (row.getD (t.header.indexOf col) Cell.absent)))⟩

/-- The cell of row `i` at the column named `c` (`none` when the table has
no such column). -/
def Table.cellAt (t : Table) (i : ℕ) (c : String) : Option Cell :=
  if c ∈ t.header then
    some ((t.rows.getD i []).getD (t.header.indexOf c) Cell.absent)
  else none

/-- A cell whose CSV round trip is faithful.  Text must be something the
reader keeps as text: nonempty, not an `na_values` token, not
numeric-looking (plain or scientific notation, even after trimming the
surrounding whitespace the numeric converter skips), not a signed
`inf`/`infinity`/`nan` word, and not a boolean literal.  An empty or
`na_values` field reloads as the absent marker, and the other excluded
shapes as floats or booleans. -/
def cellOk : Cell → Prop
  | Cell.text s => s ≠ [] ∧ s ∉ naTokens ∧ parseNumTok s = none ∧
      parseNumTok (trimSpaces s) = none ∧
      isSpecialFloatToken (trimSpaces s) = false ∧
      isBoolToken s = false
  | _ => True

instance : DecidablePred cellOk := fun c => by
  cases c <;> simp only [cellOk] <;> exact inferInstance

/-- Date-formatting normalization on a cell: date-shaped text is read back
as a date; everything else is untouched.  Used to state round-trip
equality "modulo date formatting normalization". -/
def cellDateNorm (c : Cell) : Cell :=
  match c with
  | Cell.text s =>
    (match parseDateStr s with
     | some dt => Cell.date dt
     | none => Cell.text s)
  | c => c

/-- Table equality modulo date formatting normalization. -/
def tableEqModDate (t t' : Table) : Prop :=
  t.header = t'.header ∧
  t.rows.map (List.map cellDateNorm) = t'.rows.map (List.map cellDateNorm)

instance (t t' : Table) : Decidable (tableEqModDate t t') := by
  unfold tableEqModDate; exact inferInstance

/-- The workout file schema (`app.py` line 39). -/
def workoutCols : List String :=
  ["date", "exercise", "sets", "reps", "weight", "notes"]

/-- The nutrition file schema (`app.py` line 40). -/
def nutritionCols : List String :=
  ["date", "calories", "protein", "carbs", "fat", "sugar", "notes"]

/-- A schema-conforming workout table whose notes cell is the empty
string; pandas reloads an empty field as `NaN`, so its round trip is not
the identity. -/
def roundTripTable : Table :=
  ⟨workoutCols,
    [[Cell.date ⟨2024, 1, 5⟩, Cell.text ("Bench".toList), Cell.num 3 0,
      Cell.num 5 0, Cell.num 1350 1, Cell.text []]]⟩

/-- A schema-conforming workout table whose text cells are nonempty and
not numeric-looking (its round trip is faithful). -/
def cleanTable : Table :=
  ⟨workoutCols,
    [[Cell.date ⟨2024, 1, 5⟩, Cell.text ("Bench".toList), Cell.num 3 0,
      Cell.num 5 0, Cell.num 1350 1, Cell.text ("felt strong".toList)],
     [Cell.date ⟨2024, 1, 7⟩, Cell.text ("Squat".toList), Cell.num 5 0,
      Cell.num 5 0, Cell.num 2250 1, Cell.absent]]⟩

/-- The malformed-import example: an uploaded file carrying only the
columns `date` and `weight`. -/
def uploadedTable : Table :=
  ⟨["date", "weight"],
    [[Cell.text ("2024-04-01".toList), Cell.num 1000 1]]⟩

/-! ## The spec's reading of the daily summary (for claim C1) -/

/-- Written from the spec's words for claim C1, to be compared with the
code's `dailyView`: a day aggregation would emit one bucket per distinct
non-absent date, so the displayed dates would be distinct and present.
This is the part of the claim the code refutes. -/
def specDailyOneBucketPerDate (t : List NRow) : Prop :=
  ((dailyView t).map (·.date)).Nodup ∧ ∀ r ∈ dailyView t, r.date.isSome

instance (t : List NRow) : Decidable (specDailyOneBucketPerDate t) := by
  unfold specDailyOneBucketPerDate; exact inferInstance

/-! ## Order lemmas for the sorting relations -/

theorem dateLE_total (a b : Date) : dateLE a b ∨ dateLE b a := by
  unfold dateLE; omega

theorem dateLE_trans {a b c : Date} (h1 : dateLE a b) (h2 : dateLE b c) :
    dateLE a c := by
  unfold dateLE at *; omega

theorem optRel_total (le : Date → Date → Prop)
    (h : ∀ a b, le a b ∨ le b a) :
    ∀ x y, optRel le x y ∨ optRel le y x := by
  intro x y
  cases x <;> cases y <;> simp only [optRel] <;> first
    | exact Or.inl trivial
    | exact Or.inr trivial
    | exact h _ _

theorem optRel_trans (le : Date → Date → Prop)
    (h : ∀ {a b c}, le a b → le b c → le a c) :
    ∀ {x y z}, optRel le x y → optRel le y z → optRel le x z := by
  intro x y z h1 h2
  cases x <;> cases y <;> cases z <;> simp only [optRel] at * <;>
    first
      | trivial
      | exact h h1 h2

theorem dailyRel_isTotal : IsTotal NRow dailyRel :=
  ⟨fun a b => optRel_total _ (fun x y => dateLE_total y x) a.date b.date⟩

theorem dailyRel_isTrans : IsTrans NRow dailyRel :=
  ⟨fun a b c h1 h2 => by
    unfold dailyRel at *
    exact optRel_trans (fun x y => dateLE y x)
      (fun hab hbc => dateLE_trans hbc hab) h1 h2⟩

theorem dateGE_isTotal : IsTotal Date dateGE :=
  ⟨fun a b => dateLE_total b a⟩

theorem dateGE_isTrans : IsTrans Date dateGE :=
  ⟨fun _ _ _ h1 h2 => dateLE_trans h2 h1⟩

theorem ascRel_isTotal : IsTotal WRow ascRel :=
  ⟨fun a b => optRel_total _ dateLE_total a.date b.date⟩

theorem ascRel_isTrans : IsTrans WRow ascRel :=
  ⟨fun a b c h1 h2 => by
    unfold ascRel at *
    exact optRel_trans dateLE (fun hab hbc => dateLE_trans hab hbc) h1 h2⟩

/-! ## Progress analysis: helper lemmas -/

theorem progressStats_cons {t : List WRow} {ex : List Char} {x : WRow}
    {xs : List WRow} (hl : plotRows t ex = x :: xs) :
    progressStats t ex = some ⟨x.weight.getD 0,
      ((x :: xs).getLast (List.cons_ne_nil x xs)).weight.getD 0,
      ((x :: xs).getLast (List.cons_ne_nil x xs)).weight.getD 0 -
        x.weight.getD 0,
      if x.weight.getD 0 = 0 then 0
      else (((x :: xs).getLast (List.cons_ne_nil x xs)).weight.getD 0 -
        x.weight.getD 0) / x.weight.getD 0 * 100⟩ := by
  unfold progressStats
  split
  next heq => rw [hl] at heq; cases heq
  next y ys heq =>
    rw [hl] at heq
    obtain ⟨rfl, rfl⟩ := List.cons.inj heq
    rfl

theorem progressStats_nil {t : List WRow} {ex : List Char}
    (hl : plotRows t ex = []) : progressStats t ex = none := by
  unfold progressStats
  split
  next => rfl
  next y ys heq => rw [hl] at heq; cases heq

theorem plotRows_sorted (t : List WRow) (ex : List Char) :
    List.Sorted ascRel (plotRows t ex) := by
  haveI := ascRel_isTotal
  haveI := ascRel_isTrans
  exact List.Pairwise.filter _ (List.sorted_insertionSort ascRel (matchRows t ex))

theorem plotRows_perm (t : List WRow) (ex : List Char) :
    (plotRows t ex).Perm
      ((matchRows t ex).filter (fun r => r.weight.isSome)) :=
  List.Perm.filter _ (List.perm_insertionSort ascRel (matchRows t ex))

theorem plotRows_none_date_last (t : List WRow) (ex : List Char)
    (i j : Fin (plotRows t ex).length) (hij : i < j)
    (hi : ((plotRows t ex).get i).date = none) :
    ((plotRows t ex).get j).date = none := by
  have hrel := (plotRows_sorted t ex).rel_get_of_lt hij
  unfold ascRel at hrel
  rw [hi] at hrel
  rcases hd : ((plotRows t ex).get j).date with _ | y
  · rfl
  · rw [hd] at hrel
    exact absurd hrel (by simp [optRel])

/-! ## Claim C3: progress statistics -/

/-- C3: for every workout table and exercise label, once the matching rows
are filtered, absent weights dropped and the remainder date-sorted
ascending, a nonempty remainder yields statistics with start equal to the
first entry's weight, current the last entry's weight, delta their
difference, and percent-change delta/start·100 (0 when start is 0); and on
the Bench example with weights 135, 145, 155 this gives start 135, current
155, delta 20, and percent-change 400/27, which rounds to 14.8 at one
decimal. -/
theorem claim_C3_progress :
    (∀ (t : List WRow) (ex : List Char), plotRows t ex ≠ [] →
      ∃ fr la, (plotRows t ex).head? = some fr ∧
        (plotRows t ex).getLast? = some la ∧
        progressStats t ex = some ⟨fr.weight.getD 0, la.weight.getD 0,
          la.weight.getD 0 - fr.weight.getD 0,
          if fr.weight.getD 0 = 0 then 0
          else (la.weight.getD 0 - fr.weight.getD 0) /
            fr.weight.getD 0 * 100⟩) ∧
    progressStats benchTable benchName = some ⟨135, 155, 20, 400/27⟩ ∧
    round1 (400/27) = 148/10 := by
  refine ⟨?_, ?_, ?_⟩
  · intro t ex h
    cases hl : plotRows t ex with
    | nil => exact absurd hl h
    | cons x xs =>
      refine ⟨x, (x :: xs).getLast (List.cons_ne_nil x xs), ?_, ?_, ?_⟩
      · exact List.head?_cons
      · exact List.getLast?_eq_getLast _ _
      · exact progressStats_cons hl
  · have h1 : progressStats benchTable benchName =
        some ⟨135, 155, (155 : ℚ) - 135,
          if (135 : ℚ) = 0 then 0 else ((155 : ℚ) - 135) / 135 * 100⟩ := rfl
    rw [h1]
    norm_num
  · unfold round1 roundHalfEven
    have h10 : (400/27 : ℚ) * 10 = 4000/27 := by norm_num
    rw [h10]
    have hf : ⌊(4000/27 : ℚ)⌋ = 148 := by
      rw [Int.floor_eq_iff]
      constructor <;> norm_num
    rw [hf]
    have hlt : (4000/27 : ℚ) - ((148 : ℤ) : ℚ) < 1/2 := by norm_num
    rw [if_pos hlt]
    norm_num

/-- Witness for C3: the Bench example has a nonempty plotted history, and
the general statistics theorem applies to it. -/
theorem claim_C3_progress_witness :
    plotRows benchTable benchName ≠ [] ∧
    (∃ fr la, (plotRows benchTable benchName).head? = some fr ∧
      (plotRows benchTable benchName).getLast? = some la ∧
      progressStats benchTable benchName =
        some ⟨fr.weight.getD 0, la.weight.getD 0,
          la.weight.getD 0 - fr.weight.getD 0,
          if fr.weight.getD 0 = 0 then 0
          else (la.weight.getD 0 - fr.weight.getD 0) /
            fr.weight.getD 0 * 100⟩) :=
  ⟨by decide, claim_C3_progress.1 benchTable benchName (by decide)⟩

/-! ## Claim C8: empty history is signalled, never accessed -/

/-- C8: when no matching row with a present weight remains, the plotted
series is empty and the progress computation returns the no-data sentinel
`none`; the first/last accesses exist only in the nonempty match arm, so
no out-of-bounds access happens. -/
theorem claim_C8_empty_history (t : List WRow) (ex : List Char)
    (h : ∀ r ∈ matchRows t ex, r.weight = none) :
    plotRows t ex = [] ∧ progressStats t ex = none := by
  have hp : plotRows t ex = [] := by
    unfold plotRows
    rw [List.filter_eq_nil_iff]
    intro r hr
    have hr' : r ∈ matchRows t ex := by
      unfold sortedMatch at hr
      exact (List.perm_insertionSort ascRel (matchRows t ex)).subset hr
    simp [h r hr']
  exact ⟨hp, progressStats_nil hp⟩

/-- Witness for C8: a table whose matching rows all lack weights. -/
theorem claim_C8_empty_history_witness :
    (∀ r ∈ matchRows rowTable ("Row".toList), r.weight = none) ∧
    plotRows rowTable ("Row".toList) = [] ∧
    progressStats rowTable ("Row".toList) = none :=
  ⟨by decide, claim_C8_empty_history rowTable ("Row".toList) (by decide)⟩

/-! ## Claim C10: rows with absent dates are kept and sort last -/

/-- C10: the progress pipeline drops only rows with an absent weight — the
plotted rows are exactly the matching present-weight rows (absent dates
included); sorting places every absent-date row after every dated row; and
when an absent-date row is present, the last plotted row has an absent
date and its weight is the reported current weight. -/
theorem claim_C10_absent_date_rows (t : List WRow) (ex : List Char) :
    (plotRows t ex).Perm
      ((matchRows t ex).filter (fun r => r.weight.isSome)) ∧
    List.Sorted ascRel (plotRows t ex) ∧
    (∀ (i j : Fin (plotRows t ex).length), i < j →
      ((plotRows t ex).get i).date = none →
      ((plotRows t ex).get j).date = none) ∧
    (∀ h : plotRows t ex ≠ [],
      (∃ r ∈ plotRows t ex, r.date = none) →
      ((plotRows t ex).getLast h).date = none ∧
      ∃ s, progressStats t ex = some s ∧
        s.current = ((plotRows t ex).getLast h).weight.getD 0) := by
  refine ⟨plotRows_perm t ex, plotRows_sorted t ex,
    plotRows_none_date_last t ex, ?_⟩
  intro h hex
  have hlast : ((plotRows t ex).getLast h).date = none := by
    obtain ⟨r, hr, hrnone⟩ := hex
    obtain ⟨i, hi⟩ := List.mem_iff_get.mp hr
    have hlen : 0 < (plotRows t ex).length := List.length_pos.mpr h
    have hj : (plotRows t ex).length - 1 < (plotRows t ex).length := by omega
    rw [List.getLast_eq_get]
    rcases Nat.lt_or_ge i.1 ((plotRows t ex).length - 1) with hle | hge
    · exact plotRows_none_date_last t ex i ⟨(plotRows t ex).length - 1, hj⟩
        hle (by rw [hi]; exact hrnone)
    · have : i.1 = (plotRows t ex).length - 1 := by omega
      have : i = ⟨(plotRows t ex).length - 1, hj⟩ := Fin.ext this
      rw [← this, hi]
      exact hrnone
  refine ⟨hlast, ?_⟩
  obtain ⟨x, xs, hl⟩ : ∃ x xs, plotRows t ex = x :: xs := by
    cases hll : plotRows t ex with
    | nil => exact absurd hll h
    | cons a as => exact ⟨a, as, rfl⟩
  refine ⟨_, progressStats_cons hl, ?_⟩
  simp only [hl]

/-! ## Aggregation: helper lemmas -/

theorem aggRow_metricVal (rows : List NRow) (m : Metric) :
    (aggRow rows).metricVal m =
      meanOpt (rows.filterMap (fun r => r.metricVal m)) := by
  cases m <;> rfl

theorem meanOpt_cons (x : ℚ) (l : List ℚ) :
    meanOpt (x :: l) =
      some (round1 ((x :: l).sum / ((x :: l).length : ℚ))) := rfl

theorem meanOpt_eq_none_iff (vs : List ℚ) : meanOpt vs = none ↔ vs = [] := by
  cases vs <;> simp [meanOpt]

theorem filterMap_eq_map_getD {α β : Type} (f : α → Option β) (d : β) :
    ∀ l : List α, (∀ a ∈ l, (f a).isSome) →
      l.filterMap f = l.map (fun a => (f a).getD d) := by
  intro l
  induction l with
  | nil => intro _; rfl
  | cons a l ih =>
    intro h
    obtain ⟨b, hb⟩ := Option.isSome_iff_exists.mp (h a (by simp))
    rw [List.filterMap_cons, List.map_cons, hb,
      ih (fun x hx => h x (by simp [hx]))]
    rfl

theorem aggRow_metricVal_all_present (rows : List NRow) (m : Metric)
    (hne : rows ≠ []) (hall : ∀ r ∈ rows, (r.metricVal m).isSome) :
    (aggRow rows).metricVal m =
      some (round1 (((rows.map (fun r => (r.metricVal m).getD 0)).sum) /
        (rows.length : ℚ))) := by
  rw [aggRow_metricVal, filterMap_eq_map_getD _ 0 rows hall]
  cases rows with
  | nil => exact absurd rfl hne
  | cons a l =>
    rw [List.map_cons, meanOpt_cons]
    simp [List.length_map]

theorem bucketRows_ne_nil {κ : Type} [DecidableEq κ] {ps : List (κ × NRow)}
    {k : κ} (h : ∃ p ∈ ps, p.1 = k) : bucketRows ps k ≠ [] := by
  obtain ⟨p, hp, hk⟩ := h
  unfold bucketRows
  intro hcon
  rw [List.map_eq_nil, List.filter_eq_nil_iff] at hcon
  exact hcon p hp (by simp [hk])

theorem mem_weekPairs {t : List NRow} {p : ℤ × NRow} :
    p ∈ weekPairs t ↔
      ∃ r ∈ t, ∃ dt, r.date = some dt ∧ (weekKey dt, r) = p := by
  unfold weekPairs
  simp [List.mem_filterMap, Option.map_eq_some']

theorem mem_monthPairs {t : List NRow} {p : Date × NRow} :
    p ∈ monthPairs t ↔
      ∃ r ∈ t, ∃ dt, r.date = some dt ∧ (monthKey dt, r) = p := by
  unfold monthPairs
  simp [List.mem_filterMap, Option.map_eq_some']

theorem mem_weeklyKeys {t : List NRow} {k : ℤ} :
    k ∈ weeklyKeys t ↔ ∃ p ∈ weekPairs t, p.1 = k := by
  unfold weeklyKeys
  rw [(List.perm_insertionSort _ _).mem_iff, List.mem_dedup, List.mem_map]

theorem mem_monthlyKeys {t : List NRow} {k : Date} :
    k ∈ monthlyKeys t ↔ ∃ p ∈ monthPairs t, p.1 = k := by
  unfold monthlyKeys
  rw [(List.perm_insertionSort _ _).mem_iff, List.mem_dedup, List.mem_map]

theorem mem_weeklyAgg_of_row {t : List NRow} {r : NRow} (hr : r ∈ t)
    {dt : Date} (hdt : r.date = some dt) :
    (weekKey dt, aggRow (bucketRows (weekPairs t) (weekKey dt))) ∈
      weeklyAgg t := by
  have hk : weekKey dt ∈ weeklyKeys t :=
    mem_weeklyKeys.mpr ⟨(weekKey dt, r),
      mem_weekPairs.mpr ⟨r, hr, dt, hdt, rfl⟩, rfl⟩
  exact List.mem_map.mpr ⟨weekKey dt, hk, rfl⟩

theorem mem_monthlyAgg_of_row {t : List NRow} {r : NRow} (hr : r ∈ t)
    {dt : Date} (hdt : r.date = some dt) :
    (monthKey dt, aggRow (bucketRows (monthPairs t) (monthKey dt))) ∈
      monthlyAgg t := by
  have hk : monthKey dt ∈ monthlyKeys t :=
    mem_monthlyKeys.mpr ⟨(monthKey dt, r),
      mem_monthPairs.mpr ⟨r, hr, dt, hdt, rfl⟩, rfl⟩
  exact List.mem_map.mpr ⟨monthKey dt, hk, rfl⟩

theorem weeklyAgg_map_fst (t : List NRow) :
    (weeklyAgg t).map Prod.fst = weeklyKeys t := by
  unfold weeklyAgg
  rw [List.map_map]
  exact List.map_id _

theorem monthlyAgg_map_fst (t : List NRow) :
    (monthlyAgg t).map Prod.fst = monthlyKeys t := by
  unfold monthlyAgg
  rw [List.map_map]
  exact List.map_id _

/-! ## Claim C2: weekly and monthly aggregation -/

/-- C2: every weekly bucket key is the Monday-start week of some row's
date and every dated row contributes to its Monday-start bucket (`weekKey`
is a Monday, at most six days before the date); every monthly bucket key
is the first day of some row's calendar month; bucket values are the
rounded arithmetic means over the bucket's rows (stated for metrics
present in every bucket row); buckets are sorted by period start
descending; and every emitted bucket is backed by at least one row. -/
theorem claim_C2_weekly_monthly (t : List NRow) :
    (∀ p ∈ weeklyAgg t, ∃ r ∈ t, ∃ dt, r.date = some dt ∧ weekKey dt = p.1) ∧
    (∀ r ∈ t, ∀ dt, r.date = some dt →
      (weekKey dt, aggRow (bucketRows (weekPairs t) (weekKey dt))) ∈
        weeklyAgg t) ∧
    (∀ dt : Date, dayOfWeek (weekKey dt) = 0 ∧
      weekKey dt ≤ dt.toDayNumber ∧ dt.toDayNumber - weekKey dt < 7) ∧
    List.Sorted (· ≥ ·) ((weeklyAgg t).map Prod.fst) ∧
    (∀ p ∈ weeklyAgg t, bucketRows (weekPairs t) p.1 ≠ [] ∧
      ∀ m : Metric,
        (∀ r ∈ bucketRows (weekPairs t) p.1, (r.metricVal m).isSome) →
        p.2.metricVal m = some (round1
          (((bucketRows (weekPairs t) p.1).map
              (fun r => (r.metricVal m).getD 0)).sum /
            ((bucketRows (weekPairs t) p.1).length : ℚ)))) ∧
    (∀ p ∈ monthlyAgg t, ∃ r ∈ t, ∃ dt, r.date = some dt ∧
      monthKey dt = p.1 ∧ p.1.d = 1 ∧ p.1.y = dt.y ∧ p.1.m = dt.m) ∧
    (∀ r ∈ t, ∀ dt, r.date = some dt →
      (monthKey dt, aggRow (bucketRows (monthPairs t) (monthKey dt))) ∈
        monthlyAgg t) ∧
    List.Sorted dateGE ((monthlyAgg t).map Prod.fst) ∧
    (∀ p ∈ monthlyAgg t, bucketRows (monthPairs t) p.1 ≠ [] ∧
      ∀ m : Metric,
        (∀ r ∈ bucketRows (monthPairs t) p.1, (r.metricVal m).isSome) →
        p.2.metricVal m = some (round1
          (((bucketRows (monthPairs t) p.1).map
              (fun r => (r.metricVal m).getD 0)).sum /
            ((bucketRows (monthPairs t) p.1).length : ℚ)))) := by
  refine ⟨?_, ?_, ?_, ?_, ?_, ?_, ?_, ?_, ?_⟩
  · intro p hp
    obtain ⟨k, hk, rfl⟩ := List.mem_map.mp hp
    obtain ⟨q, hq, hqk⟩ := mem_weeklyKeys.mp hk
    obtain ⟨r, hr, dt, hdt, hpair⟩ := mem_weekPairs.mp hq
    exact ⟨r, hr, dt, hdt, by rw [← hqk, ← hpair]⟩
  · intro r hr dt hdt
    exact mem_weeklyAgg_of_row hr hdt
  · intro dt
    refine ⟨?_, ?_, ?_⟩
    · have h : dt.toDayNumber - (dt.toDayNumber + 3) % 7 + 3
          = (dt.toDayNumber + 3) - (dt.toDayNumber + 3) % 7 := by ring
      unfold weekKey dayOfWeek
      rw [h, Int.sub_emod, Int.emod_emod_of_dvd _ (dvd_refl 7), sub_self,
        Int.zero_emod]
    · unfold weekKey; omega
    · unfold weekKey; omega
  · rw [weeklyAgg_map_fst]
    exact List.sorted_insertionSort _ _
  · intro p hp
    obtain ⟨k, hk, rfl⟩ := List.mem_map.mp hp
    have hne : bucketRows (weekPairs t) k ≠ [] :=
      bucketRows_ne_nil (mem_weeklyKeys.mp hk)
    exact ⟨hne, fun m hall => aggRow_metricVal_all_present _ m hne hall⟩
  · intro p hp
    obtain ⟨k, hk, rfl⟩ := List.mem_map.mp hp
    obtain ⟨q, hq, hqk⟩ := mem_monthlyKeys.mp hk
    obtain ⟨r, hr, dt, hdt, hpair⟩ := mem_monthPairs.mp hq
    have hkey : monthKey dt = k := by rw [← hqk, ← hpair]
    exact ⟨r, hr, dt, hdt, hkey, by rw [← hkey]; rfl,
      by rw [← hkey]; rfl, by rw [← hkey]; rfl⟩
  · intro r hr dt hdt
    exact mem_monthlyAgg_of_row hr hdt
  · haveI := dateGE_isTotal
    haveI := dateGE_isTrans
    rw [monthlyAgg_map_fst]
    exact List.sorted_insertionSort _ _
  · intro p hp
    obtain ⟨k, hk, rfl⟩ := List.mem_map.mp hp
    have hne : bucketRows (monthPairs t) k ≠ [] :=
      bucketRows_ne_nil (mem_monthlyKeys.mp hk)
    exact ⟨hne, fun m hall => aggRow_metricVal_all_present _ m hne hall⟩

/-- Witness for C2: on the example nutrition table, the first row's week
bucket (Monday 2024-01-01) appears in the weekly output and its calories
value is the rounded mean over that bucket; the month bucket 2024-01-01
appears in the monthly output with its mean formula. -/
theorem claim_C2_weekly_monthly_witness :
    ((nutriTable.get ⟨0, by decide⟩) ∈ nutriTable ∧
      (nutriTable.get ⟨0, by decide⟩).date = some ⟨2024, 1, 1⟩) ∧
    (weekKey ⟨2024, 1, 1⟩,
      aggRow (bucketRows (weekPairs nutriTable) (weekKey ⟨2024, 1, 1⟩))) ∈
      weeklyAgg nutriTable ∧
    (∀ r ∈ bucketRows (weekPairs nutriTable) (weekKey ⟨2024, 1, 1⟩),
      (r.metricVal Metric.calories).isSome) ∧
    (aggRow (bucketRows (weekPairs nutriTable)
        (weekKey ⟨2024, 1, 1⟩))).metricVal Metric.calories =
      some (round1
        (((bucketRows (weekPairs nutriTable) (weekKey ⟨2024, 1, 1⟩)).map
            (fun r => (r.metricVal Metric.calories).getD 0)).sum /
          ((bucketRows (weekPairs nutriTable)
            (weekKey ⟨2024, 1, 1⟩)).length : ℚ))) ∧
    (monthKey ⟨2024, 1, 1⟩,
      aggRow (bucketRows (monthPairs nutriTable) (monthKey ⟨2024, 1, 1⟩))) ∈
      monthlyAgg nutriTable := by
  have hmem : (nutriTable.get ⟨0, by decide⟩) ∈ nutriTable := by decide
  have hdt : (nutriTable.get ⟨0, by decide⟩).date = some ⟨2024, 1, 1⟩ := by
    decide
  have hw := (claim_C2_weekly_monthly nutriTable).2.1 _ hmem _ hdt
  have hm := (claim_C2_weekly_monthly nutriTable).2.2.2.2.2.2.1 _ hmem _ hdt
  have hall : ∀ r ∈ bucketRows (weekPairs nutriTable) (weekKey ⟨2024, 1, 1⟩),
      (r.metricVal Metric.calories).isSome := by decide
  have hmean := ((claim_C2_weekly_monthly nutriTable).2.2.2.2.1 _ hw).2
    Metric.calories hall
  exact ⟨⟨hmem, hdt⟩, hw, hall, hmean, hm⟩

/-! ## Claim C9: means skip absent metric values -/

/-- C9: in every weekly or monthly bucket, a metric's mean is taken over
the rows where the metric is present — the bucket value is absent exactly
when every bucket row lacks the metric (never zero), and otherwise it is
the rounded mean of the present values only. -/
theorem claim_C9_mean_skips_absent (t : List NRow) :
    (∀ p ∈ weeklyAgg t, ∀ m : Metric,
      (p.2.metricVal m = none ↔
        ∀ r ∈ bucketRows (weekPairs t) p.1, r.metricVal m = none) ∧
      (∀ x vs,
        (bucketRows (weekPairs t) p.1).filterMap (fun r => r.metricVal m) =
          x :: vs →
        p.2.metricVal m =
          some (round1 ((x :: vs).sum / ((x :: vs).length : ℚ))))) ∧
    (∀ p ∈ monthlyAgg t, ∀ m : Metric,
      (p.2.metricVal m = none ↔
        ∀ r ∈ bucketRows (monthPairs t) p.1, r.metricVal m = none) ∧
      (∀ x vs,
        (bucketRows (monthPairs t) p.1).filterMap (fun r => r.metricVal m) =
          x :: vs →
        p.2.metricVal m =
          some (round1 ((x :: vs).sum / ((x :: vs).length : ℚ))))) := by
  constructor
  · intro p hp m
    obtain ⟨k, _, rfl⟩ := List.mem_map.mp hp
    constructor
    · rw [aggRow_metricVal, meanOpt_eq_none_iff, List.filterMap_eq_nil]
    · intro x vs hcons
      rw [aggRow_metricVal, hcons, meanOpt_cons]
  · intro p hp m
    obtain ⟨k, _, rfl⟩ := List.mem_map.mp hp
    constructor
    · rw [aggRow_metricVal, meanOpt_eq_none_iff, List.filterMap_eq_nil]
    · intro x vs hcons
      rw [aggRow_metricVal, hcons, meanOpt_cons]

/-- Witness for C9: in the example table's week of 2024-01-08 the single
row has no sugar value, so the bucket's sugar mean is absent; in the week
of 2024-01-01 the present sugar values are 30 and 35 and the mean is taken
over exactly those. -/
theorem claim_C9_mean_skips_absent_witness :
    ((weekKey ⟨2024, 1, 8⟩,
        aggRow (bucketRows (weekPairs nutriTable) (weekKey ⟨2024, 1, 8⟩))) ∈
        weeklyAgg nutriTable ∧
      (∀ r ∈ bucketRows (weekPairs nutriTable) (weekKey ⟨2024, 1, 8⟩),
        r.metricVal Metric.sugar = none) ∧
      (aggRow (bucketRows (weekPairs nutriTable)
        (weekKey ⟨2024, 1, 8⟩))).metricVal Metric.sugar = none) ∧
    ((bucketRows (weekPairs nutriTable) (weekKey ⟨2024, 1, 1⟩)).filterMap
        (fun r => r.metricVal Metric.sugar) = 30 :: [35] ∧
      (aggRow (bucketRows (weekPairs nutriTable)
        (weekKey ⟨2024, 1, 1⟩))).metricVal Metric.sugar =
        some (round1 ((30 :: [35] : List ℚ).sum /
          (((30 :: [35] : List ℚ)).length : ℚ)))) := by
  have hm8 : (weekKey ⟨2024, 1, 8⟩,
      aggRow (bucketRows (weekPairs nutriTable) (weekKey ⟨2024, 1, 8⟩))) ∈
      weeklyAgg nutriTable :=
    mem_weeklyAgg_of_row (t := nutriTable)
      (r := nutriTable.get ⟨2, by decide⟩) (by decide) (by decide)
  have hm1 : (weekKey ⟨2024, 1, 1⟩,
      aggRow (bucketRows (weekPairs nutriTable) (weekKey ⟨2024, 1, 1⟩))) ∈
      weeklyAgg nutriTable :=
    mem_weeklyAgg_of_row (t := nutriTable)
      (r := nutriTable.get ⟨0, by decide⟩) (by decide) (by decide)
  have hnone : ∀ r ∈ bucketRows (weekPairs nutriTable) (weekKey ⟨2024, 1, 8⟩),
      r.metricVal Metric.sugar = none := by decide
  have hcons : (bucketRows (weekPairs nutriTable)
      (weekKey ⟨2024, 1, 1⟩)).filterMap (fun r => r.metricVal Metric.sugar) =
      30 :: [35] := by decide
  refine ⟨⟨hm8, hnone, ?_⟩, hcons, ?_⟩
  · exact (((claim_C9_mean_skips_absent nutriTable).1 _ hm8
      Metric.sugar).1).mpr hnone
  · exact ((claim_C9_mean_skips_absent nutriTable).1 _ hm1
      Metric.sugar).2 30 [35] hcons

/-! ## Claim C1: the "Daily Totals" view -/

/-- Counterexample for C1 as stated: on the example table the daily output
is not one bucket per distinct non-absent date — the two 2024-01-01 rows
stay separate rows (and the absent-date row is displayed too). -/
theorem claim_C1_counterexample :
    ¬ specDailyOneBucketPerDate nutriTable := by decide

/-- C1 (amended): the "Daily Totals" section performs no aggregation — it
shows the rows themselves sorted by date descending (absent dates last):
the display is a permutation of the input carrying exactly the input's
dates, column totals over the display equal the input's column totals
exactly, and only when the input's dates are already distinct is there one
displayed row per date. -/
theorem claim_C1_daily_amended (t : List NRow) (m : Metric) :
    (dailyView t).Perm t ∧
    List.Sorted dailyRel (dailyView t) ∧
    ((dailyView t).map (·.date)).Perm (t.map (·.date)) ∧
    ((dailyView t).map (fun r => (r.metricVal m).getD 0)).sum =
      (t.map (fun r => (r.metricVal m).getD 0)).sum ∧
    ((t.map (·.date)).Nodup → ((dailyView t).map (·.date)).Nodup) := by
  have hperm : (dailyView t).Perm t := List.perm_insertionSort dailyRel t
  refine ⟨hperm, ?_, hperm.map _, (hperm.map _).sum_eq, ?_⟩
  · haveI := dailyRel_isTotal
    haveI := dailyRel_isTrans
    exact List.sorted_insertionSort dailyRel t
  · intro hnd
    exact (hperm.map (·.date)).nodup_iff.mpr hnd

/-- Witness for C1 (amended): a table with distinct present dates yields
one displayed row per date. -/
theorem claim_C1_daily_amended_witness :
    (distinctTable.map (·.date)).Nodup ∧
    ((dailyView distinctTable).map (·.date)).Nodup :=
  ⟨by decide,
    (claim_C1_daily_amended distinctTable Metric.calories).2.2.2.2
      (by decide)⟩

/-! ## Digit rendering and parsing lemmas (for the CSV round trip) -/

theorem digitsBEAux_eq (fuel : ℕ) :
    ∀ n : ℕ, n ≤ fuel → digitsBEAux fuel n = (Nat.digits 10 n).reverse := by
  induction fuel with
  | zero =>
    intro n hn
    obtain rfl : n = 0 := by omega
    simp [digitsBEAux]
  | succ fuel ih =>
    intro n hn
    cases n with
    | zero => simp [digitsBEAux]
    | succ k =>
      have hdiv : (k + 1) / 10 ≤ fuel := by
        have := Nat.div_lt_self (Nat.succ_pos k) (by norm_num : 1 < 10)
        omega
      rw [show digitsBEAux (fuel + 1) (k + 1) =
          digitsBEAux fuel ((k + 1) / 10) ++ [(k + 1) % 10] from rfl,
        ih _ hdiv,
        Nat.digits_def' (by norm_num : (1:ℕ) < 10) (Nat.succ_pos k)]
      simp

theorem natDigitsBE_eq (n : ℕ) :
    natDigitsBE n = (Nat.digits 10 n).reverse :=
  digitsBEAux_eq n n le_rfl

theorem natDigitsBE_lt (n : ℕ) : ∀ d ∈ natDigitsBE n, d < 10 := by
  rw [natDigitsBE_eq]
  intro d hd
  rw [List.mem_reverse] at hd
  exact Nat.digits_lt_base (by norm_num) hd

theorem padDigits_lt (k n : ℕ) : ∀ d ∈ padDigits k (natDigitsBE n), d < 10 := by
  intro d hd
  unfold padDigits at hd
  rw [List.mem_append] at hd
  rcases hd with h | h
  · rw [List.eq_of_mem_replicate h]; norm_num
  · exact natDigitsBE_lt n d h

theorem padDigits_length (k : ℕ) (l : List ℕ) :
    k ≤ (padDigits k l).length := by
  unfold padDigits
  rw [List.length_append, List.length_replicate]
  omega

theorem ofDigits_replicate_zero (j : ℕ) :
    Nat.ofDigits 10 (List.replicate j 0) = 0 := by
  induction j with
  | zero => simp [Nat.ofDigits]
  | succ j ih => simp [List.replicate_succ, Nat.ofDigits_cons, ih]

theorem ofDigits_padDigits (k n : ℕ) :
    Nat.ofDigits 10 (padDigits k (natDigitsBE n)).reverse = n := by
  unfold padDigits
  rw [natDigitsBE_eq, List.reverse_append, List.reverse_reverse,
    List.reverse_replicate, Nat.ofDigits_append, Nat.ofDigits_digits,
    ofDigits_replicate_zero]
  ring

theorem charVal_digitChar {d : ℕ} (h : d < 10) : charVal (digitChar d) = d := by
  interval_cases d <;> decide

theorem isDigit_digitChar {d : ℕ} (h : d < 10) :
    (digitChar d).isDigit = true := by
  interval_cases d <;> decide

theorem digitChar_ne_dash {d : ℕ} (h : d < 10) : digitChar d ≠ '-' := by
  interval_cases d <;> decide

theorem digitChar_ne_plus {d : ℕ} (h : d < 10) : digitChar d ≠ '+' := by
  interval_cases d <;> decide

theorem digitChar_ne_space {d : ℕ} (h : d < 10) : digitChar d ≠ ' ' := by
  interval_cases d <;> decide

theorem digitsVal_map_digitChar :
    ∀ (l : List ℕ), (∀ d ∈ l, d < 10) → ∀ a : ℕ,
      (l.map digitChar).foldl (fun x c => 10 * x + charVal c) a =
        a * 10 ^ l.length + Nat.ofDigits 10 l.reverse := by
  intro l
  induction l with
  | nil => intro _ a; simp [Nat.ofDigits]
  | cons d ds ih =>
    intro hl a
    rw [List.map_cons, List.foldl_cons, charVal_digitChar (hl d (by simp)),
      ih (fun x hx => hl x (by simp [hx])) (10 * a + d),
      List.reverse_cons, Nat.ofDigits_append, Nat.ofDigits_singleton]
    simp only [List.length_cons, List.length_reverse]
    ring

theorem digitsVal_pad (k n : ℕ) :
    digitsVal ((padDigits k (natDigitsBE n)).map digitChar) = n := by
  unfold digitsVal
  rw [digitsVal_map_digitChar _ (padDigits_lt k n) 0, ofDigits_padDigits]
  ring

theorem takeWhile_all {α : Type} (p : α → Bool) :
    ∀ l : List α, (∀ a ∈ l, p a = true) → l.takeWhile p = l := by
  intro l
  induction l with
  | nil => intro _; rfl
  | cons a t ih =>
    intro h
    rw [List.takeWhile_cons, if_pos (h a (by simp)),
      ih (fun x hx => h x (by simp [hx]))]

theorem dropWhile_all {α : Type} (p : α → Bool) :
    ∀ l : List α, (∀ a ∈ l, p a = true) → l.dropWhile p = [] := by
  intro l
  induction l with
  | nil => intro _; rfl
  | cons a t ih =>
    intro h
    rw [List.dropWhile_cons, if_pos (h a (by simp))]
    exact ih (fun x hx => h x (by simp [hx]))

theorem takeWhile_append_all {α : Type} (p : α → Bool) :
    ∀ (l r : List α), (∀ a ∈ l, p a = true) →
      (l ++ r).takeWhile p = l ++ r.takeWhile p := by
  intro l r
  induction l with
  | nil => intro _; rfl
  | cons a t ih =>
    intro h
    rw [List.cons_append, List.takeWhile_cons, if_pos (h a (by simp)),
      ih (fun x hx => h x (by simp [hx])), List.cons_append]

theorem dropWhile_append_all {α : Type} (p : α → Bool) :
    ∀ (l r : List α), (∀ a ∈ l, p a = true) →
      (l ++ r).dropWhile p = r.dropWhile p := by
  intro l r
  induction l with
  | nil => intro _; rfl
  | cons a t ih =>
    intro h
    rw [List.cons_append, List.dropWhile_cons, if_pos (h a (by simp))]
    exact ih (fun x hx => h x (by simp [hx]))

theorem mapDigits_all_isDigit (l : List ℕ) (hl : ∀ d ∈ l, d < 10) :
    ∀ c ∈ l.map digitChar, c.isDigit = true := by
  intro c hc
  obtain ⟨d, hd, rfl⟩ := List.mem_map.mp hc
  exact isDigit_digitChar (hl d hd)

theorem padMap_ne_nil (k n : ℕ) (hk : 0 < k) :
    (padDigits k (natDigitsBE n)).map digitChar ≠ [] := by
  intro hcon
  have h1 : ((padDigits k (natDigitsBE n)).map digitChar).length = 0 := by
    rw [hcon]; rfl
  rw [List.length_map] at h1
  have h2 := padDigits_length k (natDigitsBE n)
  omega

theorem parseUnsigned_render (n e : ℕ) :
    parseUnsigned (renderUnsigned n e) = some (n, e) := by
  have hlt := padDigits_lt (e + 1) n
  have hlen := padDigits_length (e + 1) (natDigitsBE n)
  have hIF := List.take_append_drop
    ((padDigits (e + 1) (natDigitsBE n)).length - e)
    (padDigits (e + 1) (natDigitsBE n))
  have hIlt : ∀ d ∈ (padDigits (e + 1) (natDigitsBE n)).take
      ((padDigits (e + 1) (natDigitsBE n)).length - e), d < 10 :=
    fun d hd => hlt d (List.take_subset _ _ hd)
  have hFlt : ∀ d ∈ (padDigits (e + 1) (natDigitsBE n)).drop
      ((padDigits (e + 1) (natDigitsBE n)).length - e), d < 10 :=
    fun d hd => hlt d (List.drop_subset _ _ hd)
  have hIdig := mapDigits_all_isDigit _ hIlt
  have hFdig := mapDigits_all_isDigit _ hFlt
  have hIlen : (((padDigits (e + 1) (natDigitsBE n)).take
      ((padDigits (e + 1) (natDigitsBE n)).length - e)).map digitChar).length =
      (padDigits (e + 1) (natDigitsBE n)).length - e := by
    rw [List.length_map, List.length_take]
    omega
  have hIne : (((padDigits (e + 1) (natDigitsBE n)).take
      ((padDigits (e + 1) (natDigitsBE n)).length - e)).map digitChar) ≠ [] := by
    intro hcon
    have := congrArg List.length hcon
    rw [hIlen] at this
    simp at this
    omega
  cases e with
  | zero =>
    have hs : renderUnsigned n 0 =
        ((padDigits 1 (natDigitsBE n)).map digitChar) := by
      unfold renderUnsigned
      rw [if_pos rfl, List.append_nil, Nat.sub_zero, List.take_length]
    have hdig := mapDigits_all_isDigit _ (padDigits_lt 1 n)
    rw [hs]
    unfold parseUnsigned
    rw [takeWhile_all _ _ hdig, dropWhile_all _ _ hdig]
    rw [if_neg (by simp)]
    rw [if_neg (padMap_ne_nil 1 n (by norm_num))]
    unfold parseMantissaRest
    rw [if_pos rfl, digitsVal_pad]
  | succ e' =>
    have hs : renderUnsigned n (e' + 1) =
        (((padDigits (e' + 2) (natDigitsBE n)).take
            ((padDigits (e' + 2) (natDigitsBE n)).length - (e' + 1))).map
          digitChar) ++
        '.' :: (((padDigits (e' + 2) (natDigitsBE n)).drop
            ((padDigits (e' + 2) (natDigitsBE n)).length - (e' + 1))).map
          digitChar) := by
      unfold renderUnsigned
      rw [if_neg (Nat.succ_ne_zero e')]
    have hFlen : (((padDigits (e' + 2) (natDigitsBE n)).drop
        ((padDigits (e' + 2) (natDigitsBE n)).length - (e' + 1))).map
        digitChar).length = e' + 1 := by
      rw [List.length_map, List.length_drop]
      have := padDigits_length (e' + 2) (natDigitsBE n)
      omega
    rw [hs]
    unfold parseUnsigned
    rw [takeWhile_append_all _ _ _ hIdig, dropWhile_append_all _ _ _ hIdig]
    rw [List.takeWhile_cons, List.dropWhile_cons]
    rw [if_neg (by decide : ¬ (Char.isDigit '.' = true)),
      if_neg (by decide : ¬ (Char.isDigit '.' = true))]
    rw [List.append_nil]
    rw [if_pos (by rw [List.head?_cons]), List.tail_cons]
    rw [takeWhile_all _ _ hFdig, dropWhile_all _ _ hFdig]
    rw [if_neg (fun hcon => hIne hcon.1)]
    unfold parseMantissaRest
    rw [if_pos rfl]
    rw [← List.map_append, hIF, digitsVal_pad, hFlen]

theorem renderUnsigned_head (n e : ℕ) :
    ∃ d t, renderUnsigned n e = digitChar d :: t ∧ d < 10 := by
  have hlen := padDigits_length (e + 1) (natDigitsBE n)
  cases hI : (padDigits (e + 1) (natDigitsBE n)).take
      ((padDigits (e + 1) (natDigitsBE n)).length - e) with
  | nil =>
    exfalso
    have h1 : (((padDigits (e + 1) (natDigitsBE n)).take
        ((padDigits (e + 1) (natDigitsBE n)).length - e)).length) = 0 := by
      rw [hI]; rfl
    rw [List.length_take] at h1
    omega
  | cons d t =>
    have hd : d < 10 := by
      apply padDigits_lt (e + 1) n
      apply List.take_subset _ _
      rw [hI]
      exact List.mem_cons_self d t
    refine ⟨d, t.map digitChar ++ (if e = 0 then [] else
      '.' :: ((padDigits (e + 1) (natDigitsBE n)).drop
        ((padDigits (e + 1) (natDigitsBE n)).length - e)).map digitChar),
      ?_, hd⟩
    unfold renderUnsigned
    rw [hI, List.map_cons, List.cons_append]

theorem renderUnsigned_ne_nil (n e : ℕ) : renderUnsigned n e ≠ [] := by
  obtain ⟨d, t, heq, _⟩ := renderUnsigned_head n e
  rw [heq]
  exact List.cons_ne_nil _ _

theorem renderNum_ne_nil (m : ℤ) (e : ℕ) : renderNum m e ≠ [] := by
  unfold renderNum
  by_cases hm : m < 0
  · rw [if_pos hm]
    simp
  · rw [if_neg hm, List.nil_append]
    exact renderUnsigned_ne_nil _ _

theorem parseNumTok_renderNum (m : ℤ) (e : ℕ) :
    parseNumTok (renderNum m e) = some (m, e) := by
  by_cases hm : m < 0
  · have hr : renderNum m e = '-' :: renderUnsigned m.natAbs e := by
      unfold renderNum
      rw [if_pos hm]
      rfl
    rw [hr]
    unfold parseNumTok
    rw [if_pos (by rw [List.head?_cons]), List.tail_cons,
      parseUnsigned_render]
    simp only [Option.map_some', Option.some.injEq, Prod.mk.injEq]
    exact ⟨by omega, trivial⟩
  · have hr : renderNum m e = renderUnsigned m.natAbs e := by
      unfold renderNum
      rw [if_neg hm, List.nil_append]
    obtain ⟨d, t, heq, hd⟩ := renderUnsigned_head m.natAbs e
    unfold parseNumTok
    rw [if_neg (by
      rw [hr, heq, List.head?_cons]
      intro hcon
      exact digitChar_ne_dash hd (Option.some.inj hcon))]
    rw [if_neg (by
      rw [hr, heq, List.head?_cons]
      intro hcon
      exact digitChar_ne_plus hd (Option.some.inj hcon))]
    rw [hr, parseUnsigned_render]
    simp only [Option.map_some', Option.some.injEq, Prod.mk.injEq]
    exact ⟨by omega, trivial⟩

theorem splitFirst_not_mem (c : Char) :
    ∀ s : List Char, (∀ a ∈ s, a ≠ c) → splitFirst c s = (s, none) := by
  intro s
  induction s with
  | nil => intro _; rfl
  | cons a t ih =>
    intro h
    unfold splitFirst
    rw [if_neg (h a (by simp)), ih (fun x hx => h x (by simp [hx]))]

theorem splitFirst_append (c : Char) (X Y : List Char)
    (h : ∀ a ∈ X, a ≠ c) : splitFirst c (X ++ c :: Y) = (X, some Y) := by
  induction X with
  | nil =>
    rw [List.nil_append]
    unfold splitFirst
    rw [if_pos rfl]
  | cons a t ih =>
    rw [List.cons_append]
    unfold splitFirst
    rw [if_neg (h a (by simp)), ih (fun x hx => h x (by simp [hx]))]

theorem mapDigits_ne_dash {l : List ℕ} (hl : ∀ d ∈ l, d < 10) :
    ∀ c ∈ l.map digitChar, c ≠ '-' := by
  intro c hc
  obtain ⟨d, hd, rfl⟩ := List.mem_map.mp hc
  exact digitChar_ne_dash (hl d hd)

theorem renderDate_ne_nil (dt : Date) : renderDate dt ≠ [] := by
  unfold renderDate
  intro hcon
  exact padMap_ne_nil 4 dt.y (by norm_num) (List.append_eq_nil.mp hcon).1

theorem parseDateStr_renderDate (dt : Date) :
    parseDateStr (renderDate dt) = some dt := by
  have hY := padDigits_lt 4 dt.y
  have hM := padDigits_lt 2 dt.m
  have hD := padDigits_lt 2 dt.d
  have hnospace : ∀ ch ∈ renderDate dt, (decide (ch ≠ ' ')) = true := by
    intro ch hch
    rw [decide_eq_true_eq]
    unfold renderDate at hch
    simp only [List.mem_append, List.mem_cons] at hch
    rcases hch with (h | rfl | h | rfl | h) <;> first
      | (obtain ⟨d, hd, rfl⟩ := List.mem_map.mp h
         exact digitChar_ne_space (by first
           | exact hY d hd
           | exact hM d hd
           | exact hD d hd))
      | decide
  unfold parseDateStr
  rw [takeWhile_all _ _ hnospace]
  unfold renderDate parseYMD
  rw [splitFirst_append '-' _ _ (mapDigits_ne_dash hY)]
  simp only
  rw [splitFirst_append '-' _ _ (mapDigits_ne_dash hM)]
  simp only
  rw [if_pos ⟨padMap_ne_nil 4 dt.y (by norm_num),
    padMap_ne_nil 2 dt.m (by norm_num), padMap_ne_nil 2 dt.d (by norm_num),
    List.all_eq_true.mpr (mapDigits_all_isDigit _ hY),
    List.all_eq_true.mpr (mapDigits_all_isDigit _ hM),
    List.all_eq_true.mpr (mapDigits_all_isDigit _ hD)⟩]
  rw [digitsVal_pad, digitsVal_pad, digitsVal_pad]

theorem parseNumTok_renderDate (dt : Date) :
    parseNumTok (renderDate dt) = none := by
  have hY := padDigits_lt 4 dt.y
  have hhead : ∃ d t, renderDate dt = digitChar d :: t ∧ d < 10 := by
    cases hI : (padDigits 4 (natDigitsBE dt.y)).map digitChar with
    | nil => exact absurd hI (padMap_ne_nil 4 dt.y (by norm_num))
    | cons c t =>
      obtain ⟨d, hd, rfl⟩ : ∃ d ∈ padDigits 4 (natDigitsBE dt.y),
          digitChar d = c := by
        have : c ∈ (padDigits 4 (natDigitsBE dt.y)).map digitChar := by
          rw [hI]; exact List.mem_cons_self c t
        exact List.mem_map.mp this
      refine ⟨d, t ++ ('-' :: ((padDigits 2 (natDigitsBE dt.m)).map digitChar
        ++ ('-' :: (padDigits 2 (natDigitsBE dt.d)).map digitChar))),
        ?_, hY d hd⟩
      unfold renderDate
      rw [hI, List.cons_append]
  obtain ⟨d, tl, heq, hd⟩ := hhead
  have htake : (renderDate dt).takeWhile Char.isDigit =
      (padDigits 4 (natDigitsBE dt.y)).map digitChar := by
    unfold renderDate
    rw [takeWhile_append_all _ _ _ (mapDigits_all_isDigit _ hY),
      List.takeWhile_cons, if_neg (by decide), List.append_nil]
  have hdrop : (renderDate dt).dropWhile Char.isDigit =
      '-' :: ((padDigits 2 (natDigitsBE dt.m)).map digitChar ++
        ('-' :: (padDigits 2 (natDigitsBE dt.d)).map digitChar)) := by
    unfold renderDate
    rw [dropWhile_append_all _ _ _ (mapDigits_all_isDigit _ hY),
      List.dropWhile_cons, if_neg (by decide)]
  unfold parseNumTok
  rw [if_neg (by
    rw [heq, List.head?_cons]
    intro hcon
    exact digitChar_ne_dash hd (Option.some.inj hcon))]
  rw [if_neg (by
    rw [heq, List.head?_cons]
    intro hcon
    exact digitChar_ne_plus hd (Option.some.inj hcon))]
  unfold parseUnsigned
  rw [htake, hdrop]
  rw [if_neg (by
    rw [List.head?_cons]
    intro hcon
    exact absurd (Option.some.inj hcon) (by decide))]
  rw [if_neg (padMap_ne_nil 4 dt.y (by norm_num))]
  unfold parseMantissaRest
  rw [if_neg (List.cons_ne_nil _ _)]
  rw [if_neg (by
    rw [List.head?_cons]
    rintro (hcon | hcon) <;> exact absurd (Option.some.inj hcon) (by decide))]
  rfl

theorem naTokens_not_plain : ∀ l ∈ naTokens, l.all plainNumChar = false := by
  decide

theorem renderUnsigned_all_plain (n e : ℕ) :
    ∀ c ∈ renderUnsigned n e, plainNumChar c = true := by
  intro c hc
  unfold renderUnsigned at hc
  rw [List.mem_append] at hc
  rcases hc with h | h
  · obtain ⟨d, hd, rfl⟩ := List.mem_map.mp h
    have hlt := padDigits_lt (e + 1) n d (List.take_subset _ _ hd)
    simp [plainNumChar, isDigit_digitChar hlt]
  · by_cases he : e = 0
    · rw [if_pos he] at h
      cases h
    · rw [if_neg he, List.mem_cons] at h
      rcases h with rfl | h
      · decide
      · obtain ⟨d, hd, rfl⟩ := List.mem_map.mp h
        have hlt := padDigits_lt (e + 1) n d (List.drop_subset _ _ hd)
        simp [plainNumChar, isDigit_digitChar hlt]

theorem renderNum_all_plain (m : ℤ) (e : ℕ) :
    ∀ c ∈ renderNum m e, plainNumChar c = true := by
  intro c hc
  unfold renderNum at hc
  rw [List.mem_append] at hc
  rcases hc with h | h
  · by_cases hm : m < 0
    · rw [if_pos hm, List.mem_singleton] at h
      rw [h]
      decide
    · rw [if_neg hm] at h
      cases h
  · exact renderUnsigned_all_plain m.natAbs e c h

theorem renderDate_all_plain (dt : Date) :
    ∀ c ∈ renderDate dt, plainNumChar c = true := by
  intro c hc
  unfold renderDate at hc
  simp only [List.mem_append, List.mem_cons] at hc
  rcases hc with (h | rfl | h | rfl | h) <;> first
    | decide
    | (obtain ⟨d, hd, rfl⟩ := List.mem_map.mp h
       simp [plainNumChar, isDigit_digitChar (by first
         | exact padDigits_lt 4 dt.y d hd
         | exact padDigits_lt 2 dt.m d hd
         | exact padDigits_lt 2 dt.d d hd)])

theorem renderNum_not_na (m : ℤ) (e : ℕ) : renderNum m e ∉ naTokens := by
  intro hmem
  have h1 := naTokens_not_plain _ hmem
  have h2 : (renderNum m e).all plainNumChar = true :=
    List.all_eq_true.mpr (renderNum_all_plain m e)
  simp [h2] at h1

theorem renderDate_not_na (dt : Date) : renderDate dt ∉ naTokens := by
  intro hmem
  have h1 := naTokens_not_plain _ hmem
  have h2 : (renderDate dt).all plainNumChar = true :=
    List.all_eq_true.mpr (renderDate_all_plain dt)
  simp [h2] at h1

theorem cellRoundtrip (c : Cell) (h : cellOk c) :
    cellDateNorm (parseField (renderCell c)) = cellDateNorm c := by
  cases c with
  | absent => rfl
  | num m e =>
    show cellDateNorm (parseField (renderNum m e)) = _
    unfold parseField
    rw [if_neg (fun hcon =>
      hcon.elim (renderNum_ne_nil m e) (renderNum_not_na m e))]
    rw [parseNumTok_renderNum]
  | text s =>
    obtain ⟨hne, hna, hnum, _, _, _⟩ := h
    show cellDateNorm (parseField s) = _
    unfold parseField
    rw [if_neg (fun hcon => hcon.elim hne hna), hnum]
  | date dt =>
    show cellDateNorm (parseField (renderDate dt)) = _
    unfold parseField
    rw [if_neg (fun hcon =>
      hcon.elim (renderDate_ne_nil dt) (renderDate_not_na dt))]
    rw [parseNumTok_renderDate]
    show cellDateNorm (Cell.text (renderDate dt)) = cellDateNorm (Cell.date dt)
    simp only [cellDateNorm, parseDateStr_renderDate]

/-! ## Record store: load/save and schema coercion -/

theorem schema_proj_row (h : List String) (hnd : h.Nodup) (row : List Cell)
    (hlen : row.length = h.length) :
    (h.map fun c => if c ∈ h then row.getD (h.indexOf c) Cell.absent
      else Cell.absent) = row := by
  apply List.ext_getElem (by rw [List.length_map, hlen])
  intro i h1 h2
  rw [List.getElem_map]
  have hih : i < h.length := by rw [List.length_map] at h1; exact h1
  rw [if_pos (List.getElem_mem hih), List.indexOf_getElem hnd i hih]
  exact List.getD_eq_getElem row Cell.absent h2

theorem coerceSchema_self (h : List String) (hnd : h.Nodup)
    (rows : List (List Cell)) (hlen : ∀ row ∈ rows, row.length = h.length) :
    coerceSchema ⟨h, rows⟩ h = ⟨h, rows⟩ := by
  unfold coerceSchema
  simp only [Table.mk.injEq, true_and]
  calc rows.map _ = rows.map id :=
        List.map_congr_left (fun row hr => schema_proj_row h hnd row (hlen row hr))
    _ = rows := List.map_id rows

theorem coerceSchema_cellAt (t : Table) (schema : List String) (i : ℕ)
    (hi : i < t.rows.length) (c : String) (hcs : c ∈ schema) :
    (coerceSchema t schema).cellAt i c =
      some (if c ∈ t.header then
        (t.rows.getD i []).getD (t.header.indexOf c) Cell.absent
      else Cell.absent) := by
  have hhead : (coerceSchema t schema).header = schema := rfl
  have hrows : (coerceSchema t schema).rows =
      t.rows.map (fun row => schema.map (fun c =>
        if c ∈ t.header then row.getD (t.header.indexOf c) Cell.absent
        else Cell.absent)) := rfl
  have hj : schema.indexOf c < schema.length := List.indexOf_lt_length.mpr hcs
  have h1 : (t.rows.map (fun row => schema.map (fun c =>
      if c ∈ t.header then row.getD (t.header.indexOf c) Cell.absent
      else Cell.absent))).getD i [] =
      schema.map (fun c => if c ∈ t.header then
        (t.rows.getD i []).getD (t.header.indexOf c) Cell.absent
      else Cell.absent) := by
    have hb : i < (t.rows.map (fun row => schema.map (fun c =>
        if c ∈ t.header then row.getD (t.header.indexOf c) Cell.absent
        else Cell.absent))).length := by
      rw [List.length_map]; exact hi
    rw [List.getD_eq_getElem _ [] hb, List.getElem_map,
      ← List.getD_eq_getElem t.rows [] hi]
  have h2 : (schema.map (fun c => if c ∈ t.header then
      (t.rows.getD i []).getD (t.header.indexOf c) Cell.absent
      else Cell.absent)).getD (schema.indexOf c) Cell.absent =
      (if c ∈ t.header then
        (t.rows.getD i []).getD (t.header.indexOf c) Cell.absent
      else Cell.absent) := by
    have hb : schema.indexOf c < (schema.map (fun c => if c ∈ t.header then
        (t.rows.getD i []).getD (t.header.indexOf c) Cell.absent
        else Cell.absent)).length := by
      rw [List.length_map]; exact hj
    rw [List.getD_eq_getElem _ Cell.absent hb, List.getElem_map,
      List.getElem_indexOf hj]
  unfold Table.cellAt
  rw [hhead, hrows, if_pos hcs, h1, h2]

/-- C5: schema coercion yields exactly the schema's columns in schema
order; schema columns present in the source keep their per-row values,
schema columns absent from the source are filled with the absent marker,
and source columns outside the schema are dropped. -/
theorem claim_C5_schema_coercion (t : Table) (schema : List String) (i : ℕ)
    (hi : i < t.rows.length) :
    (coerceSchema t schema).header = schema ∧
    (coerceSchema t schema).rows.length = t.rows.length ∧
    (∀ c ∈ schema, c ∈ t.header →
      (coerceSchema t schema).cellAt i c = t.cellAt i c) ∧
    (∀ c ∈ schema, c ∉ t.header →
      (coerceSchema t schema).cellAt i c = some Cell.absent) ∧
    (∀ c : String, c ∉ schema → (coerceSchema t schema).cellAt i c = none) := by
  refine ⟨rfl, by simp [coerceSchema], ?_, ?_, ?_⟩
  · intro c hcs hct
    rw [coerceSchema_cellAt t schema i hi c hcs, if_pos hct]
    unfold Table.cellAt
    rw [if_pos hct]
  · intro c hcs hct
    rw [coerceSchema_cellAt t schema i hi c hcs, if_neg hct]
  · intro c hcs
    unfold Table.cellAt coerceSchema
    rw [if_neg hcs]

/-- C6: loading from a missing file raises nothing and returns the empty
table carrying exactly the schema's columns and zero rows. -/
theorem claim_C6_missing_file (schema : List String) :
    load_csv none schema = ⟨schema, []⟩ ∧
    (load_csv none schema).header = schema ∧
    (load_csv none schema).rows.length = 0 :=
  ⟨rfl, rfl, rfl⟩

/-- Witness for C5: the `[date, weight]` upload coerced against the
workout schema keeps `date` and `weight`, backfills the other workout
columns with the absent marker, and a column outside the schema does not
appear. -/
theorem claim_C5_schema_coercion_witness :
    (0 : ℕ) < uploadedTable.rows.length ∧
    (coerceSchema uploadedTable workoutCols).header = workoutCols ∧
    (coerceSchema uploadedTable workoutCols).cellAt 0 "date" =
      uploadedTable.cellAt 0 "date" ∧
    (coerceSchema uploadedTable workoutCols).cellAt 0 "weight" =
      uploadedTable.cellAt 0 "weight" ∧
    (coerceSchema uploadedTable workoutCols).cellAt 0 "exercise" =
      some Cell.absent ∧
    (coerceSchema uploadedTable workoutCols).cellAt 0 "sets" =
      some Cell.absent ∧
    (coerceSchema uploadedTable workoutCols).cellAt 0 "reps" =
      some Cell.absent ∧
    (coerceSchema uploadedTable workoutCols).cellAt 0 "notes" =
      some Cell.absent ∧
    (coerceSchema uploadedTable workoutCols).cellAt 0 "bodyweight" = none := by
  have hi : (0 : ℕ) < uploadedTable.rows.length := by decide
  have h := claim_C5_schema_coercion uploadedTable workoutCols 0 hi
  exact ⟨hi, h.1, h.2.2.1 "date" (by decide) (by decide),
    h.2.2.1 "weight" (by decide) (by decide),
    h.2.2.2.1 "exercise" (by decide) (by decide),
    h.2.2.2.1 "sets" (by decide) (by decide),
    h.2.2.2.1 "reps" (by decide) (by decide),
    h.2.2.2.1 "notes" (by decide) (by decide),
    h.2.2.2.2 "bodyweight" (by decide)⟩

/-! ## Claim C7: permissive date normalization -/

theorem filterMap_filter_isSome {β : Type} (f : NRow → Option β)
    (hf : ∀ r, r.date = none → f r = none) :
    ∀ t : List NRow,
      (t.filter (fun r => r.date.isSome)).filterMap f = t.filterMap f := by
  intro t
  induction t with
  | nil => rfl
  | cons r t ih =>
    rw [List.filter_cons]
    cases hd : r.date with
    | none =>
      simp only [Option.isSome_none, Bool.false_eq_true, if_false]
      rw [ih, List.filterMap_cons, hf r hd]
    | some dt =>
      simp only [Option.isSome_some, if_true]
      rw [List.filterMap_cons, List.filterMap_cons, ih]

/-- C7: date normalization is total — a value that fails the permissive
parse becomes the absent marker rather than raising, a successful parse
yields a pure calendar date with the time-of-day after a space discarded —
and rows whose date is absent contribute to no weekly or monthly bucket
(removing them changes neither aggregation, and every bucket row has a
present date: no synthetic unknown bucket exists). -/
theorem claim_C7_date_normalization :
    (∀ s : List Char, parseDateStr s = none →
      ensureDateCell (Cell.text s) = Cell.absent) ∧
    (∀ s : List Char, ∀ dt : Date, parseDateStr s = some dt →
      ensureDateCell (Cell.text s) = Cell.date dt) ∧
    (∀ s rest : List Char, (∀ c ∈ s, c ≠ ' ') →
      parseDateStr (s ++ ' ' :: rest) = parseDateStr s) ∧
    (∀ t : List NRow,
      weeklyAgg (t.filter (fun r => r.date.isSome)) = weeklyAgg t ∧
      monthlyAgg (t.filter (fun r => r.date.isSome)) = monthlyAgg t) ∧
    (∀ (t : List NRow) (k : ℤ),
      ∀ r ∈ bucketRows (weekPairs t) k, r.date.isSome) ∧
    (∀ (t : List NRow) (k : Date),
      ∀ r ∈ bucketRows (monthPairs t) k, r.date.isSome) := by
  refine ⟨?_, ?_, ?_, ?_, ?_, ?_⟩
  · intro s h
    simp [ensureDateCell, h]
  · intro s dt h
    simp [ensureDateCell, h]
  · intro s rest h
    unfold parseDateStr
    have hp : ∀ c ∈ s, (fun c => decide (c ≠ ' ')) c = true :=
      fun c hc => decide_eq_true_eq.mpr (h c hc)
    rw [takeWhile_append_all _ _ _ hp, takeWhile_all _ _ hp,
      List.takeWhile_cons, if_neg (by decide), List.append_nil]
  · intro t
    have hw : weekPairs (t.filter (fun r => r.date.isSome)) = weekPairs t :=
      filterMap_filter_isSome _ (fun r hr => by
        show r.date.map _ = none
        rw [hr]; rfl) t
    have hm : monthPairs (t.filter (fun r => r.date.isSome)) = monthPairs t :=
      filterMap_filter_isSome _ (fun r hr => by
        show r.date.map _ = none
        rw [hr]; rfl) t
    constructor
    · unfold weeklyAgg weeklyKeys
      rw [hw]
    · unfold monthlyAgg monthlyKeys
      rw [hm]
  · intro t k r hr
    unfold bucketRows at hr
    obtain ⟨p, hp, rfl⟩ := List.mem_map.mp hr
    obtain ⟨r0, _, dt, hdt, hpair⟩ := mem_weekPairs.mp (List.mem_filter.mp hp).1
    cases hpair
    rw [hdt]
    rfl
  · intro t k r hr
    unfold bucketRows at hr
    obtain ⟨p, hp, rfl⟩ := List.mem_map.mp hr
    obtain ⟨r0, _, dt, hdt, hpair⟩ :=
      mem_monthPairs.mp (List.mem_filter.mp hp).1
    cases hpair
    rw [hdt]
    rfl

/-- Witness for C7: an unparseable value coerces to the absent marker, an
ISO date parses (with a time-of-day suffix discarded), and the example
table's aggregation ignores its absent-date row, whose week bucket rows
all carry present dates. -/
theorem claim_C7_date_normalization_witness :
    parseDateStr ("junk".toList) = none ∧
    ensureDateCell (Cell.text ("junk".toList)) = Cell.absent ∧
    parseDateStr ("2024-01-05".toList) = some ⟨2024, 1, 5⟩ ∧
    ensureDateCell (Cell.text ("2024-01-05".toList)) =
      Cell.date ⟨2024, 1, 5⟩ ∧
    (∀ c ∈ "2024-01-05".toList, c ≠ ' ') ∧
    parseDateStr ("2024-01-05".toList ++ ' ' :: "13:45:00".toList) =
      parseDateStr ("2024-01-05".toList) ∧
    weeklyAgg (nutriTable.filter (fun r => r.date.isSome)) =
      weeklyAgg nutriTable ∧
    (nutriTable.get ⟨2, by decide⟩) ∈
      bucketRows (weekPairs nutriTable) (weekKey ⟨2024, 1, 8⟩) ∧
    ((nutriTable.get ⟨2, by decide⟩)).date.isSome := by
  have h1 : parseDateStr ("junk".toList) = none := by decide
  have h2 : parseDateStr ("2024-01-05".toList) = some ⟨2024, 1, 5⟩ := by
    decide
  have h3 : ∀ c ∈ "2024-01-05".toList, c ≠ ' ' := by decide
  have hmem : (nutriTable.get ⟨2, by decide⟩) ∈
      bucketRows (weekPairs nutriTable) (weekKey ⟨2024, 1, 8⟩) := by decide
  exact ⟨h1, claim_C7_date_normalization.1 _ h1, h2,
    claim_C7_date_normalization.2.1 _ _ h2, h3,
    claim_C7_date_normalization.2.2.1 _ _ h3,
    (claim_C7_date_normalization.2.2.2.1 nutriTable).1,
    hmem, claim_C7_date_normalization.2.2.2.2.1 nutriTable _ _ hmem⟩

/-- Witness for C10: on `deadliftTable` the plotted rows are nonempty and
contain an absent-date row, so the theorem applies. -/
theorem claim_C10_absent_date_rows_witness :
    plotRows deadliftTable ("Deadlift".toList) ≠ [] ∧
    (∃ r ∈ plotRows deadliftTable ("Deadlift".toList), r.date = none) ∧
    (∀ h : plotRows deadliftTable ("Deadlift".toList) ≠ [],
      (∃ r ∈ plotRows deadliftTable ("Deadlift".toList), r.date = none) →
      ((plotRows deadliftTable ("Deadlift".toList)).getLast h).date = none ∧
      ∃ s, progressStats deadliftTable ("Deadlift".toList) = some s ∧
        s.current = ((plotRows deadliftTable
          ("Deadlift".toList)).getLast h).weight.getD 0) :=
  ⟨by decide, by decide,
    (claim_C10_absent_date_rows deadliftTable ("Deadlift".toList)).2.2.2⟩

end HealthApp
